import Mathlib

/-!
The program kube-plex: a shallow embedding of `main.go`

The program translates the transcoder invocation it was started with
(`rewriteArgs`), builds a pod descriptor from it (`generatePod`), submits the
pod, polls its phase until a terminal one is seen (`waitForPodCompletion`)
while racing against a stop signal, and finally deletes the pod.

Go strings are modelled as Lean `String`s (sequences of characters), slices as
`List`s, a run-time panic as `Except.error`, a `klog.Fatal` as the end of the
run with exit status 255, and the cluster as a script of responses.
-/

namespace KubePlex

/-! ## Library functions used by the program -/

/-- Go `strings.Index` on the characters of a string: the position of the
first occurrence of `sub`, `none` standing for Go's `-1`. -/
def indexChars (sub : List Char) : List Char → Option Nat
  | [] => if sub = [] then some 0 else none
  | c :: cs =>
    if sub.isPrefixOf (c :: cs) then some 0
    else (indexChars sub cs).map (fun j => j + 1)

/-- Go `strings.Index(s, sub)`. -/
def stringsIndex (s sub : String) : Option Nat := indexChars sub.data s.data

/-- Go `strings.Replace(s, old, new, 1)`: `s` is returned as it is when
`old == new` or `old` does not occur; otherwise the text before the first
occurrence, then `new`, then the text after that occurrence. -/
def stringsReplace1 (s old new : String) : String :=
  if old = new then s
  else match stringsIndex s old with
    | none => s
    | some j => ⟨s.data.take j ++ new.data ++ s.data.drop (j + old.length)⟩

/-- Go `strings.SplitN(s, sep, 2)` for a non-empty `sep`: one element when
`sep` does not occur, else the text before the first `sep` and the whole
remainder. -/
def stringsSplitN2 (s sep : String) : List String :=
  match stringsIndex s sep with
  | none => [s]
  | some m => [⟨s.data.take m⟩, ⟨s.data.drop (m + sep.length)⟩]

/-- A Go run-time panic. -/
inductive GoPanic where
  | indexOutOfRange
deriving DecidableEq, Repr

deriving instance DecidableEq for Except

/-- Exit status of a process ended by `klog.Fatal`/`klog.Fatalf`. -/
def exitFatal : Nat := 255

/-- Exit status of a Go process ended by an unrecovered panic. -/
def exitPanic : Nat := 2

/-! ## Configuration (the package-level variables read from the environment) -/

/-- The six package-level variables of `main.go`; `namespace` is a keyword of
Lean, the variable is the field `kubeNamespace`. -/
structure Config where
  dataPVC : String
  configPVC : String
  transcodePVC : String
  kubeNamespace : String
  pmsImage : String
  pmsInternalAddress : String
deriving DecidableEq, Repr

/-! ## The pod descriptor -/

/-- The type `corev1.VolumeMount`, with the fields the program sets. -/
structure VolumeMount where
  name : String
  mountPath : String
  readOnly : Bool
deriving DecidableEq, Repr

/-- The type `corev1.EnvVar`. -/
structure EnvVar where
  name : String
  value : String
deriving DecidableEq, Repr

/-- The type `corev1.Container`, with the fields the program sets. -/
structure Container where
  name : String
  command : List String
  image : String
  env : List EnvVar
  workingDir : String
  volumeMounts : List VolumeMount
deriving DecidableEq, Repr

/-- A `corev1.Volume` backed by a persistent volume claim. -/
structure Volume where
  name : String
  claimName : String
deriving DecidableEq, Repr

/-- The type `corev1.RestartPolicy`. -/
inductive RestartPolicy where
  | always
  | onFailure
  | never
deriving DecidableEq, Repr

/-- The type `corev1.PodSpec`, with the fields the program sets. -/
structure PodSpec where
  nodeSelector : List (String × String)
  restartPolicy : RestartPolicy
  containers : List Container
  volumes : List Volume
deriving DecidableEq, Repr

/-- The type `corev1.Pod`, with the fields set by `generatePod`. -/
structure Pod where
  generateName : String
  spec : PodSpec
deriving DecidableEq, Repr

/-- A configuration with every variable set. -/
def sampleConfig : Config :=
  { dataPVC := "plex-data"
    configPVC := "plex-config"
    transcodePVC := "plex-transcode"
    kubeNamespace := "plex"
    pmsImage := "plexinc/pms-docker:latest"
    pmsInternalAddress := "http://plex:32400" }

/-- The configuration of a process started with `PMS_INTERNAL_ADDRESS` unset. -/
def noAddressConfig : Config :=
  { sampleConfig with pmsInternalAddress := "" }

/-! ## `checkEnv` -/

/-- Function `checkEnv`: `klog.Fatal` ends the process when the namespace is empty (the
`return false` after it is never reached); otherwise `true`. -/
def checkEnv (cfg : Config) : Except Nat Bool :=
  if cfg.kubeNamespace = "" then .error exitFatal
  else .ok true

/-! ## `rewriteArgs` -/

/-- The literal replaced inside the values of the address flags. -/
def loopback : String := "http://127.0.0.1:32400"

/-- First case of the switch in `rewriteArgs`. -/
def isAddressFlag (v : String) : Prop :=
  v = "-progressurl" ∨ v = "-manifest_name" ∨ v = "-segment_list"

/-- Second case of the switch in `rewriteArgs`. -/
def isLogLevelFlag (v : String) : Prop :=
  v = "-loglevel" ∨ v = "-loglevel_plex"

/-- Either case of the switch in `rewriteArgs`. -/
def isRecognizedFlag (v : String) : Prop :=
  isAddressFlag v ∨ isLogLevelFlag v

instance (v : String) : Decidable (isAddressFlag v) := by
  unfold isAddressFlag; infer_instance

instance (v : String) : Decidable (isLogLevelFlag v) := by
  unfold isLogLevelFlag; infer_instance

instance (v : String) : Decidable (isRecognizedFlag v) := by
  unfold isRecognizedFlag; infer_instance

/-- One iteration of the loop of `rewriteArgs` at index `i`: `v` is read from
the slice as it stands now (a `range` over a slice reads the shared backing
array), and the write to `in[i+1]` panics when `i+1` is out of range. -/
def rewriteArgsStep (cfg : Config) (i : Nat) (a : List String) :
    Except GoPanic (List String) :=
  match a[i]? with
  | none => .ok a
  | some v =>
    if isAddressFlag v then
      match a[i + 1]? with
      | none => .error .indexOutOfRange
      | some x => .ok (a.set (i + 1) (stringsReplace1 x loopback cfg.pmsInternalAddress))
    else if isLogLevelFlag v then
      if i + 1 < a.length then .ok (a.set (i + 1) "debug")
      else .error .indexOutOfRange
    else .ok a

/-- The iterations `i, i+1, ..., i+n-1` of the loop of `rewriteArgs`. -/
def rewriteArgsFrom (cfg : Config) : Nat → Nat → List String → Except GoPanic (List String)
  | 0, _, a => .ok a
  | n + 1, i, a =>
    match rewriteArgsStep cfg i a with
    | .error e => .error e
    | .ok a' => rewriteArgsFrom cfg n (i + 1) a'

/-- Function `rewriteArgs`: the loop runs over the indices `0 .. len(in)-1`; the result
is the slice as the in-place updates leave it. -/
def rewriteArgs (cfg : Config) (args : List String) : Except GoPanic (List String) :=
  rewriteArgsFrom cfg args.length 0 args

/-- The switch of `rewriteArgs` as a function: what the iteration that reads
the token `v` leaves in the next slot, which held `x`. -/
def rewriteValue (cfg : Config) (v x : String) : String :=
  if isAddressFlag v then stringsReplace1 x loopback cfg.pmsInternalAddress
  else if isLogLevelFlag v then "debug"
  else x

/-- Function `rewriteEnv`: no changes. -/
def rewriteEnv (env : List String) : List String := env

/-! ## `toCoreV1EnvVar` and `generatePod` -/

/-- Function `toCoreV1EnvVar`: every entry is split at its first `=`; reading
`splitvar[1]` panics for an entry without `=`. -/
def toCoreV1EnvVar : List String → Except GoPanic (List EnvVar)
  | [] => .ok []
  | v :: rest =>
    match stringsSplitN2 v "=" with
    | [name, value] =>
      match toCoreV1EnvVar rest with
      | .error e => .error e
      | .ok out => .ok ({ name := name, value := value } :: out)
    | _ => .error .indexOutOfRange

/-- Function `generatePod`: the descriptor literal, with the environment
converted by `toCoreV1EnvVar` first. -/
def generatePod (cfg : Config) (cwd : String) (env : List String) (args : List String) :
    Except GoPanic Pod :=
  match toCoreV1EnvVar env with
  | .error e => .error e
  | .ok envVars =>
    .ok
      { generateName := "pms-elastic-transcoder-"
        spec :=
          { nodeSelector := [("beta.kubernetes.io/arch", "amd64")]
            restartPolicy := .never
            containers :=
              [{ name := "plex"
                 command := args
                 image := cfg.pmsImage
                 env := envVars
                 workingDir := cwd
                 volumeMounts :=
                   [{ name := "data", mountPath := "/data", readOnly := true },
                    { name := "config", mountPath := "/config", readOnly := true },
                    { name := "transcode", mountPath := "/transcode", readOnly := false }] }]
            volumes :=
              [{ name := "data", claimName := cfg.dataPVC },
               { name := "config", claimName := cfg.configPVC },
               { name := "transcode", claimName := cfg.transcodePVC }] } }

/-! ## `waitForPodCompletion` -/

/-- The type `corev1.PodPhase`; it is a string type, `other` stands for any value that
is none of the five constants. -/
inductive Phase where
  | pending
  | running
  | succeeded
  | failed
  | unknown
  | other
deriving DecidableEq, Repr

/-- The part of the pod returned by `Pods.Get` that the loop reads. -/
structure PodStatus where
  name : String
  phase : Phase
deriving DecidableEq, Repr

/-- Errors seen by `main`: the error of a cluster call, passed on as it is, or
the `pod %q failed` error built by `waitForPodCompletion`. -/
inductive GoError where
  | transport (cause : String)
  | podFailed (name : String)
deriving DecidableEq, Repr

/-- One scripted response of `Pods.Get`. -/
abbrev GetResponse := Except String PodStatus

/-- How far `waitForPodCompletion` got on a script: it returned `err`
(`none` is Go's `nil`), or the script ended while the loop was still polling. -/
inductive WaitOutcome where
  | returned (err : Option GoError)
  | polling
deriving DecidableEq, Repr

/-- Function `waitForPodCompletion` against a script of `Pods.Get` responses: the number
of `Get` calls made and the outcome. -/
def waitForPodCompletion : List GetResponse → Nat × WaitOutcome
  | [] => (0, .polling)
  | .error cause :: _ => (1, .returned (some (.transport cause)))
  | .ok pod :: rest =>
    match pod.phase with
    | .failed => (1, .returned (some (.podFailed pod.name)))
    | .succeeded => (1, .returned none)
    | _ => ((waitForPodCompletion rest).1 + 1, (waitForPodCompletion rest).2)

/-- A response after which the loop polls again: a pod whose phase is neither
`Failed` nor `Succeeded`. -/
def keepsPolling : GetResponse → Bool
  | .ok pod => decide (pod.phase ≠ .failed ∧ pod.phase ≠ .succeeded)
  | .error _ => false

/-! ## `main` -/

/-- Which case of the `select` in `main` is taken. `stop` is taken once the
waiter has made `afterPolls` polls; nothing cancels the waiter then (its
context is `context.TODO()`), so it goes on polling while `main` cleans up:
`beforeLog` more polls before the cleanup log line, `beforeDelete` more before
`Pods.Delete` is called, and `afterDelete` more after that call, before the
process exits. -/
inductive Winner where
  | waiter
  | stop (afterPolls beforeLog beforeDelete afterDelete : Nat)
deriving DecidableEq, Repr

/-- What `main` receives from the `select`. -/
inductive SelectResult where
  | waitDone (err : Option GoError)
  | stopped
deriving DecidableEq, Repr

/-- The `select` of `main`: with `Winner.waiter` the result of
`waitForPodCompletion` is received, which never happens when the loop never
returns (`none`: `main` stays blocked); with `Winner.stop` the stop signal is
received, whatever the waiter does, once the waiter has made `afterPolls`
polls (or all the polls it makes, if fewer). The first component is the
number of `Get` calls made so far. -/
def selectRace (script : List GetResponse) : Winner → Nat × Option SelectResult
  | .waiter =>
    match waitForPodCompletion script with
    | (n, .returned err) => (n, some (.waitDone err))
    | (n, .polling) => (n, none)
  | .stop k _ _ _ => (min k (waitForPodCompletion script).1, some .stopped)

/-- The `Get` calls the waiter goroutine makes after the `select` of `main` has
been left: none when its result was received (it has returned); after a stop
it polls on, before the cleanup log line, before the `Pods.Delete` call and
after it, never more often in all than it polls on the script. -/
def latePolls (script : List GetResponse) : Winner → Nat × Nat × Nat
  | .waiter => (0, 0, 0)
  | .stop k l1 l2 l3 =>
    let total := (waitForPodCompletion script).1
    let n0 := min k total
    let n1 := min l1 (total - n0)
    let n2 := min l2 (total - n0 - n1)
    (n1, n2, min l3 (total - n0 - n1 - n2))

/-- What `main` does that is visible from outside: cluster calls and the log
lines around the race. -/
inductive Event where
  | create
  | get
  | delete
  | logWaitError (err : GoError)
  | logExitRequested
  | logCleaningUp
deriving DecidableEq, Repr

/-- Everything `main` reads from outside the program. -/
structure World where
  cfg : Config
  env : List String
  args : List String
  getwd : Except String String
  buildConfig : Option String
  newForConfig : Option String
  create : Except String String
  gets : List GetResponse
  winner : Winner
  delete : Option String

/-- The run of `main`: the events in order and the exit status (`none` when the
process never exits). -/
structure Run where
  trace : List Event
  exit : Option Nat
deriving DecidableEq, Repr

/-- Log lines written by the `select` of `main`. -/
def selectLog : SelectResult → List Event
  | .waitDone (some err) => [.logWaitError err]
  | .waitDone none => []
  | .stopped => [.logExitRequested]

/-- Function `main`: every `klog.Fatalf` and every panic ends the run where it
happens; an error of the waiter is only logged; after a stop the waiter
goroutine is still running, and its polls fall between the steps of the
cleanup. -/
def main (w : World) : Run :=
  match checkEnv w.cfg with
  | .error code => ⟨[], some code⟩
  | .ok isOK =>
    if isOK ≠ true then ⟨[], some 1⟩
    else
      match rewriteArgs w.cfg w.args with
      | .error _ => ⟨[], some exitPanic⟩
      | .ok args =>
        match w.getwd with
        | .error _ => ⟨[], some exitFatal⟩
        | .ok cwd =>
          match generatePod w.cfg cwd (rewriteEnv w.env) args with
          | .error _ => ⟨[], some exitPanic⟩
          | .ok _ =>
            match w.buildConfig with
            | some _ => ⟨[], some exitFatal⟩
            | none =>
              match w.newForConfig with
              | some _ => ⟨[], some exitFatal⟩
              | none =>
                match w.create with
                | .error _ => ⟨[.create], some exitFatal⟩
                | .ok _ =>
                  match selectRace w.gets w.winner with
                  | (n, none) => ⟨.create :: List.replicate n .get, none⟩
                  | (n, some r) =>
                    ⟨.create :: (List.replicate n .get ++ selectLog r
                        ++ List.replicate (latePolls w.gets w.winner).1 .get
                        ++ [.logCleaningUp]
                        ++ List.replicate (latePolls w.gets w.winner).2.1 .get
                        ++ [.delete]
                        ++ List.replicate (latePolls w.gets w.winner).2.2 .get),
                      match w.delete with
                      | some _ => some exitFatal
                      | none => some 0⟩

/-- A run in which every step succeeds and the pod is seen `Succeeded` at the
fourth poll. -/
def sampleWorld : World :=
  { cfg := sampleConfig
    env := ["PATH=/usr/bin", "X_PLEX_TOKEN=a=b"]
    args := ["Plex Transcoder", "-loglevel", "quiet", "-progressurl",
      "http://127.0.0.1:32400/video/progress"]
    getwd := .ok "/transcode"
    buildConfig := none
    newForConfig := none
    create := .ok "pms-elastic-transcoder-x7k2p"
    gets := [.ok ⟨"pms-elastic-transcoder-x7k2p", .pending⟩,
      .ok ⟨"pms-elastic-transcoder-x7k2p", .pending⟩,
      .ok ⟨"pms-elastic-transcoder-x7k2p", .running⟩,
      .ok ⟨"pms-elastic-transcoder-x7k2p", .succeeded⟩]
    winner := .waiter
    delete := none }

/-- The same run with the pod seen `Failed` at the second poll. -/
def failedWorld : World :=
  { sampleWorld with
    gets := [.ok ⟨"pms-elastic-transcoder-x7k2p", .running⟩,
      .ok ⟨"pms-elastic-transcoder-x7k2p", .failed⟩] }

/-- The same run with a transport error at the first poll. -/
def erroredWorld : World :=
  { sampleWorld with gets := [.error "connection refused"] }

/-- The same run started with `PMS_IMAGE` and the three claim variables unset. -/
def unsetClaimsWorld : World :=
  { sampleWorld with
    cfg := { sampleConfig with dataPVC := "", configPVC := "", transcodePVC := "", pmsImage := "" } }

/-- The same run started with `KUBE_NAMESPACE` unset. -/
def noNamespaceWorld : World :=
  { sampleWorld with cfg := { sampleConfig with kubeNamespace := "" } }

/-- The same run in which the stop signal arrives after two polls, and the
waiter polls once more before `Pods.Delete` is called and once after. -/
def stoppedWorld : World :=
  { sampleWorld with winner := .stop 2 0 1 1 }

/-! ## The terminal states of the specification -/

/-- Terminal states of the lifecycle controller, in the words of the
specification. -/
inductive Terminal where
  | succeeded
  | failed
  | errored
  | cancelled
deriving DecidableEq, Repr

/-- The terminal state that a result of the `select` stands for. -/
def terminalOf : SelectResult → Terminal
  | .waitDone none => .succeeded
  | .waitDone (some (.podFailed _)) => .failed
  | .waitDone (some (.transport _)) => .errored
  | .stopped => .cancelled

/-! ## Facts about the string functions -/

theorem indexChars_some (sub : List Char) :
    ∀ (s : List Char) (j : Nat), indexChars sub s = some j →
      s.drop j = sub ++ s.drop (j + sub.length) ∧
        ∀ k, k < j → ¬ sub <+: s.drop k := by
  intro s
  induction s with
  | nil =>
    intro j h
    simp only [indexChars] at h
    split at h
    · rename_i hs
      cases h
      subst hs
      simp
    · cases h
  | cons c cs ih =>
    intro j h
    simp only [indexChars] at h
    split at h
    · rename_i hp
      cases h
      rw [ List.isPrefixOf_iff_prefix] at hp
      obtain ⟨t, ht⟩ := hp
      refine ⟨?_, fun k hk => absurd hk (Nat.not_lt_zero k)⟩
      rw [← ht]
      simp
    · rename_i hp
      rw [ List.isPrefixOf_iff_prefix] at hp
      cases hq : indexChars sub cs with
      | none => rw [hq] at h; cases h
      | some m =>
        rw [hq] at h
        simp only [Option.map_some', Option.some.injEq] at h
        subst h
        obtain ⟨h1, h2⟩ := ih m hq
        constructor
        · have e : m + 1 + sub.length = (m + sub.length) + 1 := by omega
          rw [e, List.drop_succ_cons, List.drop_succ_cons]
          exact h1
        · intro k hk
          cases k with
          | zero => simpa using hp
          | succ k =>
            rw [List.drop_succ_cons]
            exact h2 k (by omega)

theorem indexChars_none (sub : List Char) :
    ∀ (s : List Char), indexChars sub s = none → ∀ k, ¬ sub <+: s.drop k := by
  intro s
  induction s with
  | nil =>
    intro h k
    simp only [indexChars] at h
    split at h
    · cases h
    · rename_i hs
      simpa using hs
  | cons c cs ih =>
    intro h k
    simp only [indexChars] at h
    split at h
    · cases h
    · rename_i hp
      rw [ List.isPrefixOf_iff_prefix] at hp
      have hq : indexChars sub cs = none := by
        cases hq : indexChars sub cs with
        | none => rfl
        | some m => rw [hq] at h; cases h
      cases k with
      | zero => simpa using hp
      | succ k =>
        rw [List.drop_succ_cons]
        exact ih hq k

theorem indexChars_first (sub s : List Char) (j : Nat) (hp : sub <+: s.drop j)
    (hmin : ∀ k, k < j → ¬ sub <+: s.drop k) : indexChars sub s = some j := by
  cases h : indexChars sub s with
  | none => exact absurd hp (indexChars_none sub s h j)
  | some m =>
    obtain ⟨h1, h2⟩ := indexChars_some sub s m h
    have hm : sub <+: s.drop m := ⟨s.drop (m + sub.length), h1.symm⟩
    rcases Nat.lt_trichotomy m j with hlt | heq | hgt
    · exact absurd hm (hmin m hlt)
    · rw [heq]
    · exact absurd hp (h2 j hgt)

theorem stringsReplace1_first (x old new : String) (pre post : List Char)
    (hx : x.data = pre ++ old.data ++ post)
    (hmin : ∀ k, k < pre.length → ¬ old.data <+: x.data.drop k) :
    (stringsReplace1 x old new).data = pre ++ new.data ++ post := by
  unfold stringsReplace1
  split
  · rename_i heq
    rw [hx, heq]
  · have hidx : stringsIndex x old = some pre.length := by
      unfold stringsIndex
      apply indexChars_first _ _ _ _ hmin
      rw [hx]
      simp
    rw [hidx]
    have hlen : old.length = old.data.length := rfl
    simp only [hx, hlen]
    simp

theorem stringsReplace1_absent (x old new : String)
    (h : ∀ k, ¬ old.data <+: x.data.drop k) : stringsReplace1 x old new = x := by
  unfold stringsReplace1
  split
  · rfl
  · cases hidx : stringsIndex x old with
    | none => rfl
    | some j =>
      have := (indexChars_some old.data x.data j hidx).1
      exact absurd ⟨_, this.symm⟩ (h j)

/-- None of the five flag tokens contains the loopback literal. -/
theorem stringsReplace1_flag (cfg : Config) (v : String) (hv : isRecognizedFlag v) :
    stringsReplace1 v loopback cfg.pmsInternalAddress = v := by
  have key : stringsIndex v loopback = none := by
    rcases hv with (h | h | h) | (h | h) <;> subst h <;> decide
  unfold stringsReplace1
  split
  · rfl
  · rw [key]

theorem debug_not_flag : ¬ isRecognizedFlag "debug" := by decide

/-! ## Facts about the loop of `rewriteArgs` -/

theorem rewriteArgsStep_length {cfg : Config} {i : Nat} {a b : List String}
    (h : rewriteArgsStep cfg i a = .ok b) : b.length = a.length := by
  unfold rewriteArgsStep at h
  split at h
  · cases h; rfl
  · split at h
    · split at h
      · cases h
      · cases h; simp
    · split at h
      · split at h
        · cases h; simp
        · cases h
      · cases h; rfl

theorem rewriteArgsStep_other {cfg : Config} {i : Nat} {a b : List String}
    (h : rewriteArgsStep cfg i a = .ok b) (j : Nat) (hj : j ≠ i + 1) : b[j]? = a[j]? := by
  have hj2 : i + 1 ≠ j := fun e => hj e.symm
  unfold rewriteArgsStep at h
  split at h
  · cases h; rfl
  · split at h
    · split at h
      · cases h
      · cases h; simp [List.getElem?_set, hj2]
    · split at h
      · split at h
        · cases h; simp [List.getElem?_set, hj2]
        · cases h
      · cases h; rfl

theorem rewriteArgsStep_next {cfg : Config} {i : Nat} {a b : List String}
    (h : rewriteArgsStep cfg i a = .ok b) (v : String) (hv : a[i]? = some v) :
    (isRecognizedFlag v → i + 1 < a.length) ∧
      ∀ x, a[i + 1]? = some x → b[i + 1]? = some (rewriteValue cfg v x) := by
  unfold rewriteArgsStep at h
  rw [hv] at h
  simp only at h
  unfold rewriteValue isRecognizedFlag
  split at h
  · rename_i hf
    split at h
    · cases h
    · rename_i y hy
      cases h
      have hlt : i + 1 < a.length := by
        rcases Nat.lt_or_ge (i + 1) a.length with hlt | hge
        · exact hlt
        · rw [List.getElem?_eq_none hge] at hy; cases hy
      refine ⟨fun _ => hlt, ?_⟩
      intro x hx
      rw [hy] at hx
      cases hx
      simp [hf, List.getElem?_set, hlt]
  · rename_i hf
    split at h
    · rename_i hl
      split at h
      · rename_i hlt
        cases h
        refine ⟨fun _ => hlt, ?_⟩
        intro x _
        simp [hf, hl, List.getElem?_set, hlt]
      · cases h
    · rename_i hl
      cases h
      refine ⟨fun hr => ?_, ?_⟩
      · rcases hr with hr | hr
        · exact absurd hr hf
        · exact absurd hr hl
      · intro x hx
        simp [hf, hl, hx]

theorem rewriteArgsFrom_spec (cfg : Config) :
    ∀ (n i : Nat) (a out : List String), rewriteArgsFrom cfg n i a = .ok out →
      out.length = a.length ∧
      (∀ j, j ≤ i → out[j]? = a[j]?) ∧
      (∀ j, i + n < j → out[j]? = a[j]?) ∧
      (∀ j v, i ≤ j → j < i + n → out[j]? = some v →
        (isRecognizedFlag v → j + 1 < a.length) ∧
          ∀ x, a[j + 1]? = some x → out[j + 1]? = some (rewriteValue cfg v x)) := by
  intro n
  induction n with
  | zero =>
    intro i a out h
    simp only [rewriteArgsFrom] at h
    cases h
    refine ⟨rfl, fun _ _ => rfl, fun _ _ => rfl, ?_⟩
    intro j v h1 h2
    omega
  | succ n ih =>
    intro i a out h
    simp only [rewriteArgsFrom] at h
    cases hs : rewriteArgsStep cfg i a with
    | error e => rw [hs] at h; cases h
    | ok b =>
      rw [hs] at h
      simp only at h
      obtain ⟨hlen, hlow, hhigh, hmid⟩ := ih (i + 1) b out h
      have hblen := rewriteArgsStep_length hs
      refine ⟨hlen.trans hblen, ?_, ?_, ?_⟩
      · intro j hj
        rw [hlow j (by omega), rewriteArgsStep_other hs j (by omega)]
      · intro j hj
        rw [hhigh j (by omega), rewriteArgsStep_other hs j (by omega)]
      · intro j v h1 h2 hv
        rcases Nat.eq_or_lt_of_le h1 with heq | hlt
        · subst heq
          have hv2 : a[i]? = some v := by
            rw [← rewriteArgsStep_other hs i (by omega), ← hlow i (by omega)]
            exact hv
          obtain ⟨hb, hx⟩ := rewriteArgsStep_next hs v hv2
          refine ⟨hb, ?_⟩
          intro x hax
          rw [hlow (i + 1) (Nat.le_refl _)]
          exact hx x hax
        · obtain ⟨hb, hx⟩ := hmid j v (by omega) (by omega) hv
          refine ⟨fun hr => by rw [← hblen]; exact hb hr, ?_⟩
          intro x hax
          apply hx
          rw [rewriteArgsStep_other hs (j + 1) (by omega)]
          exact hax

/-- The result of `rewriteArgs`, slot by slot: slot 0 is kept, and slot `j+1`
holds what the switch makes of the old value when it reads the token that the
result has at `j`. -/
theorem rewriteArgs_spec (cfg : Config) (args out : List String)
    (h : rewriteArgs cfg args = .ok out) :
    out.length = args.length ∧ out[0]? = args[0]? ∧
      ∀ j v, out[j]? = some v →
        (isRecognizedFlag v → j + 1 < args.length) ∧
          ∀ x, args[j + 1]? = some x → out[j + 1]? = some (rewriteValue cfg v x) := by
  obtain ⟨hlen, hlow, _, hmid⟩ := rewriteArgsFrom_spec cfg args.length 0 args out h
  refine ⟨hlen, hlow 0 (Nat.le_refl _), ?_⟩
  intro j v hv
  have hj : j < out.length := by
    rcases Nat.lt_or_ge j out.length with hlt | hge
    · exact hlt
    · rw [List.getElem?_eq_none hge] at hv; cases hv
  exact hmid j v (Nat.zero_le _) (by omega) hv

/-- A recognized flag in the input is read as it is unless the token read just
before it is a log-level flag. -/
theorem rewriteArgs_reads_flag (cfg : Config) (args out : List String)
    (h : rewriteArgs cfg args = .ok out) (i : Nat) (v : String)
    (hv : args[i]? = some v) (hf : isRecognizedFlag v)
    (hprev : i = 0 ∨ ∃ u, out[i - 1]? = some u ∧ ¬ isLogLevelFlag u) :
    out[i]? = some v := by
  obtain ⟨_, h0, hstep⟩ := rewriteArgs_spec cfg args out h
  rcases hprev with h1 | ⟨u, hu, hnl⟩
  · subst h1
    rw [h0]
    exact hv
  · cases i with
    | zero => rw [h0]; exact hv
    | succ i =>
      simp only [Nat.add_sub_cancel] at hu
      rw [(hstep i u hu).2 v hv]
      unfold rewriteValue
      split
      · rw [stringsReplace1_flag cfg v hf]
      · simp [hnl]

theorem rewriteArgsStep_ok_of_lt (cfg : Config) (i : Nat) (a : List String)
    (h : i + 1 < a.length) : ∃ b, rewriteArgsStep cfg i a = .ok b := by
  unfold rewriteArgsStep
  have h1 : a[i + 1]? = some a[i + 1] := List.getElem?_eq_getElem h
  rw [h1]
  simp only [h, if_true]
  split
  · exact ⟨_, rfl⟩
  · split
    · exact ⟨_, rfl⟩
    · split
      · exact ⟨_, rfl⟩
      · exact ⟨_, rfl⟩

theorem rewriteArgsFrom_ok_of_lt (cfg : Config) :
    ∀ (n i : Nat) (a : List String), i + n < a.length →
      ∃ s, rewriteArgsFrom cfg n i a = .ok s := by
  intro n
  induction n with
  | zero => intro i a _; exact ⟨a, rfl⟩
  | succ n ih =>
    intro i a h
    obtain ⟨b, hb⟩ := rewriteArgsStep_ok_of_lt cfg i a (by omega)
    obtain ⟨s, hs⟩ := ih (i + 1) b (by rw [rewriteArgsStep_length hb]; omega)
    exact ⟨s, by simp only [rewriteArgsFrom, hb, hs]⟩

theorem rewriteArgsFrom_succ_last (cfg : Config) :
    ∀ (n i : Nat) (a : List String),
      rewriteArgsFrom cfg (n + 1) i a =
        match rewriteArgsFrom cfg n i a with
        | .error e => .error e
        | .ok s => rewriteArgsStep cfg (i + n) s := by
  intro n
  induction n with
  | zero =>
    intro i a
    simp only [rewriteArgsFrom, Nat.add_zero]
    cases rewriteArgsStep cfg i a <;> rfl
  | succ n ih =>
    intro i a
    rw [rewriteArgsFrom]
    conv => rhs; rw [rewriteArgsFrom]
    cases hs : rewriteArgsStep cfg i a with
    | error e => rfl
    | ok b =>
      simp only
      rw [ih (i + 1) b]
      have e : i + 1 + n = i + (n + 1) := by omega
      rw [e]

theorem rewriteArgsStep_last (cfg : Config) (i : Nat) (s : List String) (last : String)
    (hlen : s.length = i + 1) (hlast : s[i]? = some last) :
    rewriteArgsStep cfg i s =
      if isRecognizedFlag last then .error .indexOutOfRange else .ok s := by
  have h1 : s[i + 1]? = none := List.getElem?_eq_none (by omega)
  have h2 : ¬ i + 1 < s.length := by omega
  unfold rewriteArgsStep isRecognizedFlag
  rw [hlast]
  simp only [h1, h2]
  by_cases hf : isAddressFlag last
  · simp [hf]
  · by_cases hl : isLogLevelFlag last
    · simp [hf, hl]
    · simp [hf, hl]

theorem rewriteValue_of_not_flag (cfg : Config) (v x : String)
    (h : ¬ isRecognizedFlag v) : rewriteValue cfg v x = x := by
  unfold rewriteValue
  have h1 : ¬ isAddressFlag v := fun e => h (Or.inl e)
  have h2 : ¬ isLogLevelFlag v := fun e => h (Or.inr e)
  simp [h1, h2]

theorem getElem?_eq_of_length_eq {α : Type} (a b : List α) (j : Nat)
    (hlen : a.length = b.length) (hb : b[j]? = none) : a[j]? = b[j]? := by
  rw [hb]
  rw [List.getElem?_eq_none_iff] at hb ⊢
  omega

/-- While no flag has been read, the loop leaves the slice as it was. -/
theorem rewriteArgsFrom_no_flag (cfg : Config) (args s : List String)
    (h : rewriteArgsFrom cfg (args.length - 1) 0 args = .ok s)
    (hno : ∀ j v, j + 1 < args.length → args[j]? = some v → ¬ isRecognizedFlag v) :
    s = args := by
  obtain ⟨hlen, hlow, _, hmid⟩ := rewriteArgsFrom_spec cfg _ 0 args s h
  apply List.ext_getElem?
  intro j
  induction j with
  | zero => exact hlow 0 (Nat.le_refl _)
  | succ j ih =>
    rcases Nat.lt_or_ge (j + 1) args.length with hlt | hge
    · have hj : args[j]? = some args[j] := List.getElem?_eq_getElem (by omega)
      have hj1 : args[j + 1]? = some args[j + 1] := List.getElem?_eq_getElem hlt
      rw [hj] at ih
      rw [(hmid j _ (Nat.zero_le _) (by omega) ih).2 _ hj1, hj1,
        rewriteValue_of_not_flag cfg _ _ (hno j _ hlt hj)]
    · exact getElem?_eq_of_length_eq s args (j + 1) hlen (List.getElem?_eq_none hge)

/-! ## The claims about `rewriteArgs` -/

/-- C5, as stated, fails: in `-loglevel -progressurl <url>` the token
`-progressurl` sits in the value slot of `-loglevel`, the loop overwrites it
with `debug` before reading it, and the address after it is left as it was. -/
theorem rewriteArgs_address_flag_overwritten :
    rewriteArgs sampleConfig ["-loglevel", "-progressurl", "http://127.0.0.1:32400/x"]
        = .ok ["-loglevel", "debug", "http://127.0.0.1:32400/x"] ∧
      isAddressFlag "-progressurl" ∧
      stringsReplace1 "http://127.0.0.1:32400/x" loopback sampleConfig.pmsInternalAddress
        = "http://plex:32400/x" := by
  decide

/-- C5 (amended): when `rewriteArgs` returns normally, at every position `i`
where the loop reads `-progressurl`, `-manifest_name` or `-segment_list` (the
token the result has at `i`; it is the input token whenever `i = 0` or the
token read at `i-1` is not a log-level flag) the result at `i+1` is the input
at `i+1` with exactly the first occurrence of the loopback literal replaced by
`pmsInternalAddress`: the text before and after that occurrence is kept, and
a value without the literal is unchanged. -/
theorem rewriteArgs_address_flag_value (cfg : Config) (args out : List String)
    (h : rewriteArgs cfg args = .ok out) :
    (∀ i v, out[i]? = some v → isAddressFlag v →
      ∃ x, args[i + 1]? = some x ∧
        out[i + 1]? = some (stringsReplace1 x loopback cfg.pmsInternalAddress)) ∧
    (∀ i v, args[i]? = some v → isAddressFlag v →
      (i = 0 ∨ ∃ u, out[i - 1]? = some u ∧ ¬ isLogLevelFlag u) →
      ∃ x, args[i + 1]? = some x ∧
        out[i + 1]? = some (stringsReplace1 x loopback cfg.pmsInternalAddress)) ∧
    (∀ (x : String) (pre post : List Char), x.data = pre ++ loopback.data ++ post →
      (∀ k, k < pre.length → ¬ loopback.data <+: x.data.drop k) →
      (stringsReplace1 x loopback cfg.pmsInternalAddress).data
        = pre ++ cfg.pmsInternalAddress.data ++ post) ∧
    (∀ x : String, (∀ k, ¬ loopback.data <+: x.data.drop k) →
      stringsReplace1 x loopback cfg.pmsInternalAddress = x) := by
  obtain ⟨_, _, hstep⟩ := rewriteArgs_spec cfg args out h
  have key : ∀ i v, out[i]? = some v → isAddressFlag v →
      ∃ x, args[i + 1]? = some x ∧
        out[i + 1]? = some (stringsReplace1 x loopback cfg.pmsInternalAddress) := by
    intro i v hv hf
    obtain ⟨hb, hx⟩ := hstep i v hv
    have hlt := hb (Or.inl hf)
    refine ⟨args[i + 1], List.getElem?_eq_getElem hlt, ?_⟩
    rw [hx _ (List.getElem?_eq_getElem hlt)]
    simp [rewriteValue, hf]
  refine ⟨key, ?_, ?_, ?_⟩
  · intro i v hv hf hprev
    exact key i v (rewriteArgs_reads_flag cfg args out h i v hv (Or.inl hf) hprev) hf
  · intro x pre post hx hmin
    exact stringsReplace1_first x loopback cfg.pmsInternalAddress pre post hx hmin
  · intro x hx
    exact stringsReplace1_absent x loopback cfg.pmsInternalAddress hx

theorem rewriteArgs_address_flag_value_witness :
    rewriteArgs sampleConfig
        ["-progressurl", "http://127.0.0.1:32400/a?u=http://127.0.0.1:32400"]
        = .ok ["-progressurl", "http://plex:32400/a?u=http://127.0.0.1:32400"] ∧
      ∃ x, ["-progressurl", "http://127.0.0.1:32400/a?u=http://127.0.0.1:32400"][0 + 1]?
          = some x ∧
        ["-progressurl", "http://plex:32400/a?u=http://127.0.0.1:32400"][0 + 1]?
          = some (stringsReplace1 x loopback sampleConfig.pmsInternalAddress) :=
  ⟨by decide,
    (rewriteArgs_address_flag_value sampleConfig
      ["-progressurl", "http://127.0.0.1:32400/a?u=http://127.0.0.1:32400"]
      ["-progressurl", "http://plex:32400/a?u=http://127.0.0.1:32400"] (by decide)).1
      0 "-progressurl" (by decide) (by decide)⟩

/-- C6, as stated, fails: the second `-loglevel` of `-loglevel -loglevel info`
is overwritten with `debug` before the loop reads it, so `info` is kept. -/
theorem rewriteArgs_loglevel_flag_overwritten :
    rewriteArgs sampleConfig ["-loglevel", "-loglevel", "info"]
        = .ok ["-loglevel", "debug", "info"] ∧
      isLogLevelFlag "-loglevel" ∧ "info" ≠ "debug" := by
  decide

/-- C6 (amended): when `rewriteArgs` returns normally, at every position `i`
where the loop reads `-loglevel` or `-loglevel_plex` (the token the result has
at `i`; it is the input token whenever `i = 0` or the token read at `i-1` is
not a log-level flag) the result at `i+1` is `debug`, whatever the input held
there. -/
theorem rewriteArgs_loglevel_flag_value (cfg : Config) (args out : List String)
    (h : rewriteArgs cfg args = .ok out) :
    (∀ i v, out[i]? = some v → isLogLevelFlag v →
      i + 1 < args.length ∧ out[i + 1]? = some "debug") ∧
    (∀ i v, args[i]? = some v → isLogLevelFlag v →
      (i = 0 ∨ ∃ u, out[i - 1]? = some u ∧ ¬ isLogLevelFlag u) →
      i + 1 < args.length ∧ out[i + 1]? = some "debug") := by
  obtain ⟨_, _, hstep⟩ := rewriteArgs_spec cfg args out h
  have key : ∀ i v, out[i]? = some v → isLogLevelFlag v →
      i + 1 < args.length ∧ out[i + 1]? = some "debug" := by
    intro i v hv hf
    obtain ⟨hb, hx⟩ := hstep i v hv
    have hlt := hb (Or.inr hf)
    refine ⟨hlt, ?_⟩
    rw [hx _ (List.getElem?_eq_getElem hlt)]
    have hna : ¬ isAddressFlag v := by
      rcases hf with hf | hf <;> subst hf <;> decide
    simp [rewriteValue, hf, hna]
  refine ⟨key, ?_⟩
  intro i v hv hf hprev
  exact key i v (rewriteArgs_reads_flag cfg args out h i v hv (Or.inr hf) hprev) hf

theorem rewriteArgs_loglevel_flag_value_witness :
    rewriteArgs sampleConfig ["transcoder", "-loglevel_plex", "error", "-i"]
        = .ok ["transcoder", "-loglevel_plex", "debug", "-i"] ∧
      1 + 1 < ["transcoder", "-loglevel_plex", "error", "-i"].length ∧
      ["transcoder", "-loglevel_plex", "debug", "-i"][1 + 1]? = some "debug" :=
  ⟨by decide,
    (rewriteArgs_loglevel_flag_value sampleConfig
      ["transcoder", "-loglevel_plex", "error", "-i"]
      ["transcoder", "-loglevel_plex", "debug", "-i"] (by decide)).1
      1 "-loglevel_plex" (by decide) (by decide)⟩

/-- C7, as stated, fails: with `PMS_INTERNAL_ADDRESS` unset, the replacement
made for `-progressurl` turns its value into the token `-loglevel`, which the
loop then reads as a flag and so overwrites the element after it, although
the input token before that element is not a recognized flag. -/
theorem rewriteArgs_value_becomes_flag :
    rewriteArgs noAddressConfig ["-progressurl", "http://127.0.0.1:32400-loglevel", "keep"]
        = .ok ["-progressurl", "-loglevel", "debug"] ∧
      ¬ isRecognizedFlag "http://127.0.0.1:32400-loglevel" ∧ "debug" ≠ "keep" := by
  decide

/-- C7 (amended): when `rewriteArgs` returns normally, the result has the
length of the input, and the result equals the input at position 0 and at
every position `j+1` for which the token the loop reads at `j` (the token the
result has at `j`) is not one of the five recognized flags; this is so in
particular when the input token at `j` is not a recognized flag and `j = 0`
or the token read at `j-1` is not an address flag. -/
theorem rewriteArgs_frame (cfg : Config) (args out : List String)
    (h : rewriteArgs cfg args = .ok out) :
    out.length = args.length ∧ out[0]? = args[0]? ∧
    (∀ j u, out[j]? = some u → ¬ isRecognizedFlag u → out[j + 1]? = args[j + 1]?) ∧
    (∀ j u, args[j]? = some u → ¬ isRecognizedFlag u →
      (j = 0 ∨ ∃ t, out[j - 1]? = some t ∧ ¬ isAddressFlag t) →
      out[j + 1]? = args[j + 1]?) := by
  obtain ⟨hlen, h0, hstep⟩ := rewriteArgs_spec cfg args out h
  have key : ∀ j u, out[j]? = some u → ¬ isRecognizedFlag u →
      out[j + 1]? = args[j + 1]? := by
    intro j u hu hnf
    cases hx : args[j + 1]? with
    | none => exact (getElem?_eq_of_length_eq out args (j + 1) hlen hx).trans hx
    | some x => rw [(hstep j u hu).2 x hx, rewriteValue_of_not_flag cfg u x hnf]
  refine ⟨hlen, h0, key, ?_⟩
  intro j u hu hnf hprev
  rcases hprev with hj | ⟨t, ht, hna⟩
  · subst hj
    exact key 0 u (h0.trans hu) hnf
  · cases j with
    | zero => exact key 0 u (h0.trans hu) hnf
    | succ j =>
      simp only [Nat.add_sub_cancel] at ht
      have hread := (hstep j t ht).2 u hu
      apply key (j + 1) _ hread
      unfold rewriteValue
      rw [if_neg hna]
      split
      · exact debug_not_flag
      · exact hnf

theorem rewriteArgs_frame_witness :
    rewriteArgs sampleConfig ["transcoder", "-i", "in.mkv", "-loglevel", "quiet", "out"]
        = .ok ["transcoder", "-i", "in.mkv", "-loglevel", "debug", "out"] ∧
      ["transcoder", "-i", "in.mkv", "-loglevel", "debug", "out"][1 + 1]?
        = ["transcoder", "-i", "in.mkv", "-loglevel", "quiet", "out"][1 + 1]? :=
  ⟨by decide,
    (rewriteArgs_frame sampleConfig
      ["transcoder", "-i", "in.mkv", "-loglevel", "quiet", "out"]
      ["transcoder", "-i", "in.mkv", "-loglevel", "debug", "out"] (by decide)).2.2.1
      1 "-i" (by decide) (by decide)⟩

/-- C8, as stated, fails in both halves: a trailing `-loglevel` in the value
slot of another `-loglevel` is overwritten before it is read, and the call
returns; and a trailing value that the replacement turns into `-loglevel`
(here with `PMS_INTERNAL_ADDRESS` unset) makes the call fail although no
recognized flag is the last input element. -/
theorem rewriteArgs_last_element_rewritten :
    (rewriteArgs sampleConfig ["-loglevel", "-loglevel"] = .ok ["-loglevel", "debug"] ∧
      isRecognizedFlag "-loglevel") ∧
    (rewriteArgs noAddressConfig ["-progressurl", "http://127.0.0.1:32400-loglevel"]
        = .error .indexOutOfRange ∧
      ¬ isRecognizedFlag "http://127.0.0.1:32400-loglevel") := by
  decide

/-- C8 (amended): the empty list is returned as it is. On a non-empty list the
tokens the loop reads are the input element at 0 and, at each later position,
the input element as the switch rewrote it for the token read just before;
`rewriteArgs` fails with index out of range exactly when the last token read
is a recognized flag, and returns the tokens read otherwise. It fails
whenever the last input element is a recognized flag and it is the only
element or the token read just before it is not a log-level flag; it returns
whenever the last input element is not a recognized flag and it is the only
element or the token read just before it is not an address flag; and when no
element before the last is a recognized flag, the tokens read are the input. -/
theorem rewriteArgs_fails_iff_last_read_is_flag (cfg : Config) (args : List String) :
    rewriteArgs cfg [] = .ok [] ∧
    (args ≠ [] →
      ∃ s last, rewriteArgsFrom cfg (args.length - 1) 0 args = .ok s ∧
        s.length = args.length ∧ s.getLast? = some last ∧
        s[0]? = args[0]? ∧
        (∀ (j : Nat) (v x : String), s[j]? = some v → args[j + 1]? = some x →
          s[j + 1]? = some (rewriteValue cfg v x)) ∧
        (isRecognizedFlag last → rewriteArgs cfg args = .error .indexOutOfRange) ∧
        (¬ isRecognizedFlag last → rewriteArgs cfg args = .ok s) ∧
        ((∀ j v, j + 1 < args.length → args[j]? = some v → ¬ isRecognizedFlag v) →
          s = args) ∧
        (∀ x, args.getLast? = some x → isRecognizedFlag x →
          (args.length = 1 ∨ ∃ u, s[args.length - 2]? = some u ∧ ¬ isLogLevelFlag u) →
          rewriteArgs cfg args = .error .indexOutOfRange) ∧
        (∀ x, args.getLast? = some x → ¬ isRecognizedFlag x →
          (args.length = 1 ∨ ∃ u, s[args.length - 2]? = some u ∧ ¬ isAddressFlag u) →
          rewriteArgs cfg args = .ok s)) := by
  refine ⟨rfl, ?_⟩
  intro hne
  have hpos : 0 < args.length := List.length_pos.mpr hne
  obtain ⟨s, hs⟩ := rewriteArgsFrom_ok_of_lt cfg (args.length - 1) 0 args (by omega)
  obtain ⟨hlen, hlow, _, hmid⟩ := rewriteArgsFrom_spec cfg _ 0 args s hs
  obtain ⟨last, hlast⟩ : ∃ last, s[args.length - 1]? = some last :=
    ⟨_, List.getElem?_eq_getElem (by omega)⟩
  have hrun : rewriteArgs cfg args =
      if isRecognizedFlag last then .error .indexOutOfRange else .ok s := by
    unfold rewriteArgs
    have e : args.length = (args.length - 1) + 1 := by omega
    conv => lhs; rw [e, rewriteArgsFrom_succ_last, hs]
    simp only [Nat.zero_add]
    exact rewriteArgsStep_last cfg _ s _ (by omega) hlast
  have h0 : s[0]? = args[0]? := hlow 0 (Nat.le_refl _)
  have hrec : ∀ (j : Nat) (v x : String), s[j]? = some v → args[j + 1]? = some x →
      s[j + 1]? = some (rewriteValue cfg v x) := by
    intro j v x hv hx
    have hj : j + 1 < args.length := by
      rcases Nat.lt_or_ge (j + 1) args.length with hlt | hge
      · exact hlt
      · rw [List.getElem?_eq_none hge] at hx; cases hx
    exact (hmid j v (Nat.zero_le _) (by omega) hv).2 x hx
  -- the last token read, from the last input element and the token read before it
  have hread : ∀ x, args.getLast? = some x → args.length = 1 → last = x := by
    intro x hx h1
    rw [List.getLast?_eq_getElem?, h1] at hx
    rw [h1] at hlast
    simp only [Nat.sub_self] at hx hlast
    rw [h0, hx] at hlast
    exact (Option.some.inj hlast).symm
  have hprev : ∀ x u, args.getLast? = some x → 2 ≤ args.length →
      s[args.length - 2]? = some u → last = rewriteValue cfg u x := by
    intro x u hx h2 hu
    rw [List.getLast?_eq_getElem?] at hx
    have e1 : args.length - 1 = (args.length - 2) + 1 := by omega
    rw [e1] at hx hlast
    rw [hrec _ u x hu hx] at hlast
    exact (Option.some.inj hlast).symm
  refine ⟨s, last, hs, hlen, ?_, h0, hrec, ?_, ?_, ?_, ?_, ?_⟩
  · rw [List.getLast?_eq_getElem?, hlen]
    exact hlast
  · intro hf
    rw [hrun, if_pos hf]
  · intro hf
    rw [hrun, if_neg hf]
  · intro hno
    exact rewriteArgsFrom_no_flag cfg args s hs hno
  · intro x hx hf hbefore
    have hl : last = x := by
      by_cases h1 : args.length = 1
      · exact hread x hx h1
      · rcases hbefore with h | ⟨u, hu, hnl⟩
        · exact absurd h h1
        · rw [hprev x u hx (by omega) hu]
          unfold rewriteValue
          split
          · exact stringsReplace1_flag cfg x hf
          · rfl
    rw [hrun, hl, if_pos hf]
  · intro x hx hf hbefore
    have hl : ¬ isRecognizedFlag last := by
      by_cases h1 : args.length = 1
      · rw [hread x hx h1]
        exact hf
      · rcases hbefore with h | ⟨u, hu, hna⟩
        · exact absurd h h1
        · rw [hprev x u hx (by omega) hu]
          unfold rewriteValue
          rw [if_neg hna]
          split
          · exact debug_not_flag
          · exact hf
    rw [hrun, if_neg hl]

theorem rewriteArgs_fails_iff_last_read_is_flag_witness :
    rewriteArgs sampleConfig ["x", "-loglevel", "quiet", "-segment_list"]
      = .error .indexOutOfRange := by
  obtain ⟨s, last, _, _, _, h0, hrec, _, _, _, hfail, _⟩ :=
    (rewriteArgs_fails_iff_last_read_is_flag sampleConfig
      ["x", "-loglevel", "quiet", "-segment_list"]).2 (by decide)
  have h0x : s[0]? = some "x" := h0
  have h1 : s[1]? = some "-loglevel" :=
    (hrec 0 "x" "-loglevel" h0x (by decide)).trans (by decide)
  have h2 : s[2]? = some "debug" :=
    (hrec 1 "-loglevel" "quiet" h1 (by decide)).trans (by decide)
  exact hfail "-segment_list" (by decide) (by decide) (Or.inr ⟨"debug", h2, by decide⟩)

/-! ## Facts about `toCoreV1EnvVar` -/

theorem indexChars_singleton (c : Char) :
    ∀ (s : List Char) (m : Nat), indexChars [c] s = some m →
      c ∉ s.take m ∧ s = s.take m ++ c :: s.drop (m + 1) := by
  intro s
  induction s with
  | nil =>
    intro m h
    simp [indexChars] at h
  | cons d ds ih =>
    intro m h
    simp only [indexChars] at h
    split at h
    · rename_i hp
      cases h
      have hd : c = d := by simpa [List.isPrefixOf] using hp
      subst hd
      simp
    · rename_i hp
      have hd : c ≠ d := by simpa [List.isPrefixOf] using hp
      cases hq : indexChars [c] ds with
      | none => rw [hq] at h; cases h
      | some k =>
        rw [hq] at h
        simp only [Option.map_some', Option.some.injEq] at h
        subst h
        obtain ⟨h1, h2⟩ := ih k hq
        constructor
        · rw [List.take_succ_cons]
          intro hmem
          rcases List.mem_cons.mp hmem with e | e
          · exact hd e
          · exact h1 e
        · rw [List.take_succ_cons, List.drop_succ_cons, List.cons_append, ← h2]

theorem indexChars_singleton_of_mem (c : Char) :
    ∀ (s : List Char), c ∈ s → ∃ m, indexChars [c] s = some m := by
  intro s
  induction s with
  | nil => intro h; cases h
  | cons d ds ih =>
    intro h
    simp only [indexChars]
    split
    · exact ⟨0, rfl⟩
    · rename_i hp
      have hd : c ≠ d := by simpa [List.isPrefixOf] using hp
      rcases List.mem_cons.mp h with e | e
      · exact absurd e hd
      · obtain ⟨m, hm⟩ := ih e
        exact ⟨m + 1, by rw [hm]; rfl⟩

/-- An entry with `=` is split into the text before its first `=` and the
whole remainder. -/
theorem stringsSplitN2_eq (v : String) (h : '=' ∈ v.data) :
    ∃ name value, stringsSplitN2 v "=" = [name, value] ∧
      name ++ "=" ++ value = v ∧ '=' ∉ name.data := by
  obtain ⟨m, hm⟩ := indexChars_singleton_of_mem '=' v.data h
  have hidx : stringsIndex v "=" = some m := hm
  obtain ⟨h1, h2⟩ := indexChars_singleton '=' v.data m hm
  refine ⟨⟨v.data.take m⟩, ⟨v.data.drop (m + 1)⟩, ?_, ?_, h1⟩
  · unfold stringsSplitN2
    rw [hidx]
    rfl
  · apply String.ext
    simp only [String.data_append]
    conv => rhs; rw [h2]
    simp

theorem toCoreV1EnvVar_ok :
    ∀ (env : List String), (∀ v ∈ env, '=' ∈ v.data) →
      ∃ out, toCoreV1EnvVar env = .ok out ∧ out.length = env.length ∧
        ∀ (i : Nat) (v : String), env[i]? = some v →
          ∃ e : EnvVar, out[i]? = some e ∧ e.name ++ "=" ++ e.value = v ∧
            '=' ∉ e.name.data := by
  intro env
  induction env with
  | nil =>
    intro _
    exact ⟨[], rfl, rfl, fun i v h => by cases h⟩
  | cons v rest ih =>
    intro h
    obtain ⟨out, hout, hlen, hall⟩ := ih (fun u hu => h u (List.mem_cons_of_mem _ hu))
    obtain ⟨name, value, hsplit, hcat, hname⟩ := stringsSplitN2_eq v (h v (List.mem_cons_self _ _))
    refine ⟨{ name := name, value := value } :: out, ?_, by simp [hlen], ?_⟩
    · simp only [toCoreV1EnvVar, hsplit, hout]
    · intro i u hu
      cases i with
      | zero =>
        simp only [List.getElem?_cons_zero, Option.some.injEq] at hu
        subst hu
        exact ⟨{ name := name, value := value }, List.getElem?_cons_zero, hcat, hname⟩
      | succ i =>
        simp only [List.getElem?_cons_succ] at hu ⊢
        exact hall i u hu

/-! ## The claims about `generatePod` -/

/-- C9: every descriptor returned by `generatePod` has exactly one container,
with exactly the three volume mounts `data` at `/data` read-only, `config` at
`/config` read-only and `transcode` at `/transcode` read-write, and restart
policy `Never`; and a descriptor is returned whenever every environment entry
contains `=`. -/
theorem generatePod_shape (cfg : Config) (cwd : String) (env args : List String) :
    (∀ pod, generatePod cfg cwd env args = .ok pod →
      (∃ c, pod.spec.containers = [c] ∧
        c.volumeMounts =
          [{ name := "data", mountPath := "/data", readOnly := true },
           { name := "config", mountPath := "/config", readOnly := true },
           { name := "transcode", mountPath := "/transcode", readOnly := false }]) ∧
      pod.spec.restartPolicy = .never) ∧
    ((∀ v ∈ env, '=' ∈ v.data) → ∃ pod, generatePod cfg cwd env args = .ok pod) := by
  constructor
  · intro pod h
    unfold generatePod at h
    split at h
    · cases h
    · cases h
      exact ⟨⟨_, rfl, rfl⟩, rfl⟩
  · intro henv
    obtain ⟨out, hout, _, _⟩ := toCoreV1EnvVar_ok env henv
    unfold generatePod
    rw [hout]
    exact ⟨_, rfl⟩

theorem generatePod_shape_witness :
    ∃ pod, generatePod sampleConfig "/transcode" ["PATH=/usr/bin"] ["Plex Transcoder"]
      = .ok pod :=
  (generatePod_shape sampleConfig "/transcode" ["PATH=/usr/bin"] ["Plex Transcoder"]).2
    (by decide)

/-- C10: for every environment list whose entries each contain `=`,
`generatePod` returns a descriptor whose single container has `args` as its
command, `cwd` as its working directory, and one environment variable per
entry, in order: the name is the text before the first `=` (it contains no
`=`), the value is the whole remainder, and name, `=`, value spell the entry. -/
theorem generatePod_carries_invocation (cfg : Config) (cwd : String)
    (env args : List String) (henv : ∀ v ∈ env, '=' ∈ v.data) :
    ∃ pod c, generatePod cfg cwd env args = .ok pod ∧ pod.spec.containers = [c] ∧
      c.command = args ∧ c.workingDir = cwd ∧ c.env.length = env.length ∧
      ∀ (i : Nat) (v : String), env[i]? = some v →
        ∃ e : EnvVar, c.env[i]? = some e ∧ e.name ++ "=" ++ e.value = v ∧
          '=' ∉ e.name.data := by
  obtain ⟨out, hout, hlen, hall⟩ := toCoreV1EnvVar_ok env henv
  unfold generatePod
  rw [hout]
  exact ⟨_, _, rfl, rfl, rfl, rfl, hlen, hall⟩

theorem generatePod_carries_invocation_witness :
    (∀ v ∈ ["PATH=/usr/bin", "X_PLEX_TOKEN=a=b"], '=' ∈ v.data) ∧
      ∃ pod c, generatePod sampleConfig "/transcode" ["PATH=/usr/bin", "X_PLEX_TOKEN=a=b"]
          ["Plex Transcoder", "-i"] = .ok pod ∧ pod.spec.containers = [c] ∧
        c.command = ["Plex Transcoder", "-i"] ∧ c.workingDir = "/transcode" ∧
        c.env.length = ["PATH=/usr/bin", "X_PLEX_TOKEN=a=b"].length ∧
        ∀ (i : Nat) (v : String), ["PATH=/usr/bin", "X_PLEX_TOKEN=a=b"][i]? = some v →
          ∃ e : EnvVar, c.env[i]? = some e ∧ e.name ++ "=" ++ e.value = v ∧
            '=' ∉ e.name.data :=
  ⟨by decide,
    generatePod_carries_invocation sampleConfig "/transcode"
      ["PATH=/usr/bin", "X_PLEX_TOKEN=a=b"] ["Plex Transcoder", "-i"] (by decide)⟩

/-! ## The claim about `waitForPodCompletion` -/

/-- The polls answered by responses that keep the loop polling are added to
the count, and nothing else changes. -/
theorem waitForPodCompletion_append (pre rest : List GetResponse)
    (hpre : ∀ r ∈ pre, keepsPolling r = true) :
    waitForPodCompletion (pre ++ rest) =
      (pre.length + (waitForPodCompletion rest).1, (waitForPodCompletion rest).2) := by
  induction pre with
  | nil => simp
  | cons r pre ih =>
    have hr := hpre r (List.mem_cons_self _ _)
    cases r with
    | error cause => simp [keepsPolling] at hr
    | ok pod =>
    obtain ⟨hf, hs⟩ : pod.phase ≠ .failed ∧ pod.phase ≠ .succeeded := by
      simpa [keepsPolling] using hr
    have ih2 := ih (fun q hq => hpre q (List.mem_cons_of_mem _ hq))
    simp only [List.cons_append, List.length_cons]
    rw [waitForPodCompletion]
    split
    · rename_i hp; exact absurd hp hf
    · rename_i hp; exact absurd hp hs
    · rw [ih2]
      simp only [Prod.mk.injEq, and_true]
      omega

/-- C2: on a script whose responses before position `k` are pods in a phase
other than `Failed` and `Succeeded` (so `Pending`, `Running`, `Unknown`),
`waitForPodCompletion` returns at the response at position `k` after exactly
`k+1` polls: `nil` for `Succeeded`, the pod-failed error with the pod's name
for `Failed`, the transport error itself for an error; it is still polling
when the script holds no such response; `Pending`, `Running` and `Unknown`
pods keep it polling. -/
theorem waitForPodCompletion_stops_at_first_terminal (pre rest : List GetResponse)
    (hpre : ∀ r ∈ pre, keepsPolling r = true) :
    (∀ name, waitForPodCompletion (pre ++ .ok ⟨name, .succeeded⟩ :: rest)
      = (pre.length + 1, .returned none)) ∧
    (∀ name, waitForPodCompletion (pre ++ .ok ⟨name, .failed⟩ :: rest)
      = (pre.length + 1, .returned (some (.podFailed name)))) ∧
    (∀ cause, waitForPodCompletion (pre ++ .error cause :: rest)
      = (pre.length + 1, .returned (some (.transport cause)))) ∧
    waitForPodCompletion pre = (pre.length, .polling) ∧
    (∀ name, keepsPolling (.ok ⟨name, .pending⟩) = true ∧
      keepsPolling (.ok ⟨name, .running⟩) = true ∧
      keepsPolling (.ok ⟨name, .unknown⟩) = true) := by
  refine ⟨?_, ?_, ?_, ?_, fun _ => ⟨rfl, rfl, rfl⟩⟩
  · intro name
    rw [waitForPodCompletion_append pre _ hpre]
    rfl
  · intro name
    rw [waitForPodCompletion_append pre _ hpre]
    rfl
  · intro cause
    rw [waitForPodCompletion_append pre _ hpre]
    rfl
  · have := waitForPodCompletion_append pre [] hpre
    rw [List.append_nil] at this
    rw [this]
    rfl

theorem waitForPodCompletion_stops_at_first_terminal_witness :
    waitForPodCompletion
        [.ok ⟨"p", .pending⟩, .ok ⟨"p", .pending⟩, .ok ⟨"p", .running⟩,
          .ok ⟨"p", .succeeded⟩]
      = (4, .returned none) :=
  (waitForPodCompletion_stops_at_first_terminal
    [.ok ⟨"p", .pending⟩, .ok ⟨"p", .pending⟩, .ok ⟨"p", .running⟩] []
    (by decide)).1 "p"

/-! ## Facts about `main` -/

/-- A run in which `Pods.Create` is called is decided by the responses of the
cluster and the winner of the race alone. -/
theorem main_of_create_mem (w : World) (h : Event.create ∈ (main w).trace) :
    main w =
      match w.create with
      | .error _ => ⟨[.create], some exitFatal⟩
      | .ok _ =>
        match selectRace w.gets w.winner with
        | (n, none) => ⟨.create :: List.replicate n .get, none⟩
        | (n, some r) =>
          ⟨.create :: (List.replicate n .get ++ selectLog r
              ++ List.replicate (latePolls w.gets w.winner).1 .get
              ++ [.logCleaningUp]
              ++ List.replicate (latePolls w.gets w.winner).2.1 .get
              ++ [.delete]
              ++ List.replicate (latePolls w.gets w.winner).2.2 .get),
            match w.delete with
            | some _ => some exitFatal
            | none => some 0⟩ := by
  unfold main at h ⊢
  cases h1 : checkEnv w.cfg with
  | error c => simp [h1] at h
  | ok isOK =>
    simp only [h1] at h ⊢
    by_cases h2 : isOK = true
    · simp only [h2, ne_eq, not_true_eq_false, if_false] at h ⊢
      cases h3 : rewriteArgs w.cfg w.args with
      | error e => simp [h3] at h
      | ok args =>
        simp only [h3] at h ⊢
        cases h4 : w.getwd with
        | error e => simp [h4] at h
        | ok cwd =>
          simp only [h4] at h ⊢
          cases h5 : generatePod w.cfg cwd (rewriteEnv w.env) args with
          | error e => simp [h5] at h
          | ok pod =>
            simp only [h5] at h ⊢
            cases h6 : w.buildConfig with
            | some e => simp [h6] at h
            | none =>
              simp only [h6] at h ⊢
              cases h7 : w.newForConfig with
              | some e => simp [h7] at h
              | none => rfl
    · simp [h2] at h

/-- A run in which `Pods.Create` is not called makes no cluster call at all
and ends with a non-zero exit status. -/
theorem main_of_create_not_mem (w : World) (h : Event.create ∉ (main w).trace) :
    (main w).trace = [] ∧ ∃ c, (main w).exit = some c ∧ c ≠ 0 := by
  unfold main at h ⊢
  cases h1 : checkEnv w.cfg with
  | error c =>
    have hc : c = exitFatal := by
      unfold checkEnv at h1
      split at h1
      · cases h1; rfl
      · cases h1
    subst hc
    exact ⟨rfl, _, rfl, by decide⟩
  | ok isOK =>
    simp only [h1] at h ⊢
    by_cases h2 : isOK = true
    · simp only [h2, ne_eq, not_true_eq_false, if_false] at h ⊢
      cases h3 : rewriteArgs w.cfg w.args with
      | error e => exact ⟨rfl, _, rfl, by decide⟩
      | ok args =>
        simp only [h3] at h ⊢
        cases h4 : w.getwd with
        | error e => exact ⟨rfl, _, rfl, by decide⟩
        | ok cwd =>
          simp only [h4] at h ⊢
          cases h5 : generatePod w.cfg cwd (rewriteEnv w.env) args with
          | error e => exact ⟨rfl, _, rfl, by decide⟩
          | ok pod =>
            simp only [h5] at h ⊢
            cases h6 : w.buildConfig with
            | some e => exact ⟨rfl, _, rfl, by decide⟩
            | none =>
              simp only [h6] at h ⊢
              cases h7 : w.newForConfig with
              | some e => exact ⟨rfl, _, rfl, by decide⟩
              | none =>
                simp only [h7] at h
                exfalso
                apply h
                cases w.create with
                | error e => simp
                | ok hd =>
                  simp only
                  rcases selectRace w.gets w.winner with ⟨n, _ | r⟩ <;> simp
    · simp only [ne_eq, h2, not_false_eq_true, if_true]
      exact ⟨rfl, _, rfl, by decide⟩

theorem count_delete_selectLog (r : SelectResult) :
    (selectLog r).count Event.delete = 0 := by
  rcases r with (_ | e) | _ <;> simp [selectLog]

theorem count_delete_replicate_get (n : Nat) :
    (List.replicate n Event.get).count Event.delete = 0 := by
  rw [List.count_replicate]
  simp

theorem count_delete_after_race (n a b c : Nat) (r : SelectResult) :
    (Event.create ::
      (List.replicate n Event.get ++ selectLog r ++ List.replicate a Event.get
        ++ [Event.logCleaningUp] ++ List.replicate b Event.get ++ [Event.delete]
        ++ List.replicate c Event.get)).count Event.delete = 1 := by
  rw [List.count_cons]
  simp only [List.count_append, count_delete_replicate_get, count_delete_selectLog]
  simp

/-! ## The claims about `main` -/

/-- C1: in every run in which `Pods.Create` is called and returns a pod,
`Pods.Delete` is called exactly once, after the race is resolved. When the
waiter returns first (with `nil`, the pod-failed error or a transport error)
the trace is the create call, its polls, the log line of the error if any,
the cleanup log line and the delete call, which is the last event. When the
stop signal is received first, which needs nothing of the waiter, the trace is
the create call, the polls made until then, the exit-requested line, the
cleanup line and the delete call, with the polls of the still-running waiter
in between and after. In every run in which `Pods.Create` returns an error,
and in every run that does not reach it, `Pods.Delete` is never called; no
run calls it twice. -/
theorem main_cleanup_exactly_once (w : World) :
    (∀ handle n err, Event.create ∈ (main w).trace → w.create = .ok handle →
      w.winner = .waiter → waitForPodCompletion w.gets = (n, .returned err) →
      (main w).trace =
          .create :: (List.replicate n .get ++ selectLog (.waitDone err)
            ++ [.logCleaningUp, .delete]) ∧
        (main w).trace.count .delete = 1 ∧ (main w).trace.getLast? = some .delete) ∧
    (∀ handle k l1 l2 l3, Event.create ∈ (main w).trace → w.create = .ok handle →
      w.winner = .stop k l1 l2 l3 →
      (main w).trace =
          .create :: (List.replicate (min k (waitForPodCompletion w.gets).1) .get
            ++ [.logExitRequested]
            ++ List.replicate (latePolls w.gets w.winner).1 .get
            ++ [.logCleaningUp]
            ++ List.replicate (latePolls w.gets w.winner).2.1 .get
            ++ [.delete]
            ++ List.replicate (latePolls w.gets w.winner).2.2 .get) ∧
        (main w).trace.count .delete = 1) ∧
    (∀ e, w.create = .error e → Event.delete ∉ (main w).trace) ∧
    (Event.create ∉ (main w).trace → Event.delete ∉ (main w).trace) ∧
    (main w).trace.count .delete ≤ 1 := by
  have hC : Event.create ∉ (main w).trace → Event.delete ∉ (main w).trace := by
    intro hc
    rw [(main_of_create_not_mem w hc).1]
    simp
  have hB : ∀ e, w.create = .error e → Event.delete ∉ (main w).trace := by
    intro e hcreate
    by_cases hc : Event.create ∈ (main w).trace
    · rw [main_of_create_mem w hc, hcreate]
      simp
    · exact hC hc
  refine ⟨?_, ?_, hB, hC, ?_⟩
  · intro handle n err hc hcreate hwin hwait
    have hrace : selectRace w.gets w.winner = (n, some (.waitDone err)) := by
      rw [hwin]
      simp only [selectRace, hwait]
    have hlate : latePolls w.gets w.winner = (0, 0, 0) := by
      rw [hwin]
      rfl
    have ht : (main w).trace =
        .create :: (List.replicate n .get ++ selectLog (.waitDone err)
          ++ [.logCleaningUp, .delete]) := by
      rw [main_of_create_mem w hc, hcreate]
      simp only [hrace, hlate]
      simp
    refine ⟨ht, ?_, ?_⟩
    · rw [main_of_create_mem w hc, hcreate]
      simp only [hrace]
      exact count_delete_after_race _ _ _ _ _
    · have e : Event.create ::
            (List.replicate n Event.get ++ selectLog (.waitDone err)
              ++ [Event.logCleaningUp, Event.delete])
          = (Event.create :: (List.replicate n Event.get ++ selectLog (.waitDone err)
              ++ [Event.logCleaningUp])) ++ [Event.delete] := by
        simp
      rw [ht, e, List.getLast?_concat]
  · intro handle k l1 l2 l3 hc hcreate hwin
    have hrace : selectRace w.gets w.winner
        = (min k (waitForPodCompletion w.gets).1, some .stopped) := by
      rw [hwin]
      rfl
    rw [main_of_create_mem w hc, hcreate]
    simp only [hrace]
    exact ⟨rfl, count_delete_after_race _ _ _ _ _⟩
  · by_cases hc : Event.create ∈ (main w).trace
    · cases hcreate : w.create with
      | error e =>
        have := hB e hcreate
        rw [List.count_eq_zero_of_not_mem this]
        omega
      | ok handle =>
        rcases hrace : selectRace w.gets w.winner with ⟨n, _ | r⟩
        · rw [main_of_create_mem w hc, hcreate]
          simp only [hrace]
          rw [List.count_cons, count_delete_replicate_get]
          simp
        · rw [main_of_create_mem w hc, hcreate]
          simp only [hrace]
          rw [count_delete_after_race]
    · rw [List.count_eq_zero_of_not_mem (hC hc)]
      omega

theorem main_cleanup_exactly_once_witness :
    ((main failedWorld).trace =
        .create :: (List.replicate 2 .get
          ++ selectLog (.waitDone (some (.podFailed "pms-elastic-transcoder-x7k2p")))
          ++ [.logCleaningUp, .delete]) ∧
      (main failedWorld).trace.count .delete = 1 ∧
      (main failedWorld).trace.getLast? = some .delete) ∧
    ((main stoppedWorld).trace =
        [.create, .get, .get, .logExitRequested, .logCleaningUp, .get, .delete, .get] ∧
      (main stoppedWorld).trace.count .delete = 1) :=
  ⟨(main_cleanup_exactly_once failedWorld).1 "pms-elastic-transcoder-x7k2p" 2
      (some (.podFailed "pms-elastic-transcoder-x7k2p"))
      (by decide) (by decide) (by decide) (by decide),
    (main_cleanup_exactly_once stoppedWorld).2.1 "pms-elastic-transcoder-x7k2p" 2 0 1 1
      (by decide) (by decide) (by decide)⟩

/-- C3, as stated, fails: after a `Failed` phase, and after a transport
error of `Pods.Get`, `main` only logs the error, deletes the pod and returns,
so the exit status is 0. -/
theorem main_exit_zero_after_failed_or_errored :
    (terminalOf (.waitDone (some (.podFailed "pms-elastic-transcoder-x7k2p"))) = .failed ∧
      main failedWorld =
        ⟨[.create, .get, .get, .logWaitError (.podFailed "pms-elastic-transcoder-x7k2p"),
          .logCleaningUp, .delete], some 0⟩) ∧
    (terminalOf (.waitDone (some (.transport "connection refused"))) = .errored ∧
      main erroredWorld =
        ⟨[.create, .get, .logWaitError (.transport "connection refused"),
          .logCleaningUp, .delete], some 0⟩) := by
  decide

/-- C3 (amended): the exit status is 0 exactly when `Pods.Delete` was called
and succeeded, which is so for every resolved race, whether the pod was seen
`Succeeded` or `Failed`, `Pods.Get` returned an error, or the stop signal
came; it is 255 when the namespace is empty, when `Pods.Create` fails, and
when `Pods.Delete` fails. -/
theorem main_exit_status (w : World) :
    (w.cfg.kubeNamespace = "" → (main w).exit = some exitFatal) ∧
    (∀ e, Event.create ∈ (main w).trace → w.create = .error e →
      (main w).exit = some exitFatal) ∧
    (∀ handle n r, Event.create ∈ (main w).trace → w.create = .ok handle →
      selectRace w.gets w.winner = (n, some r) →
      (w.delete = none → (main w).exit = some 0) ∧
        (∀ e, w.delete = some e → (main w).exit = some exitFatal)) ∧
    ((main w).exit = some 0 ↔ Event.delete ∈ (main w).trace ∧ w.delete = none) ∧
    exitFatal ≠ 0 := by
  refine ⟨?_, ?_, ?_, ?_, by decide⟩
  · intro hns
    unfold main checkEnv
    rw [if_pos hns]
  · intro e hc hcreate
    rw [main_of_create_mem w hc, hcreate]
  · intro handle n r hc hcreate hrace
    rw [main_of_create_mem w hc, hcreate]
    simp only [hrace]
    constructor
    · intro hd
      rw [hd]
    · intro e hd
      rw [hd]
  · by_cases hc : Event.create ∈ (main w).trace
    · rw [main_of_create_mem w hc]
      cases w.create with
      | error e => simp [exitFatal]
      | ok handle =>
        rcases selectRace w.gets w.winner with ⟨n, _ | r⟩
        · simp
        · cases w.delete with
          | none => simp
          | some e => simp [exitFatal]
    · obtain ⟨ht, c, hexit, hne⟩ := main_of_create_not_mem w hc
      rw [ht, hexit]
      simp [hne]

theorem main_exit_status_witness :
    (stoppedWorld.delete = none → (main stoppedWorld).exit = some 0) ∧
      (∀ e, stoppedWorld.delete = some e → (main stoppedWorld).exit = some exitFatal) :=
  (main_exit_status stoppedWorld).2.2.1 "pms-elastic-transcoder-x7k2p" 2 .stopped
    (by decide) (by decide) (by decide)

/-- C4, as stated, fails: with `PMS_IMAGE` and the three claim variables empty
and the namespace set, `checkEnv` passes, the descriptor is built, and the
pod is submitted, polled and deleted. -/
theorem main_submits_with_unset_claims :
    unsetClaimsWorld.cfg.pmsImage = "" ∧ unsetClaimsWorld.cfg.dataPVC = "" ∧
      unsetClaimsWorld.cfg.configPVC = "" ∧ unsetClaimsWorld.cfg.transcodePVC = "" ∧
      checkEnv unsetClaimsWorld.cfg = .ok true ∧
      main unsetClaimsWorld =
        ⟨[.create, .get, .get, .get, .get, .logCleaningUp, .delete], some 0⟩ := by
  decide

/-- C4 (amended): for every configuration in which the namespace is the empty
string, `checkEnv` ends the process with the fatal exit status and `main`
makes no cluster call; with a namespace set, `checkEnv` passes whatever the
other variables hold. -/
theorem checkEnv_rejects_empty_namespace (w : World) :
    (w.cfg.kubeNamespace = "" →
      checkEnv w.cfg = .error exitFatal ∧ main w = ⟨[], some exitFatal⟩) ∧
    (w.cfg.kubeNamespace ≠ "" → checkEnv w.cfg = .ok true) := by
  constructor
  · intro h
    have hc : checkEnv w.cfg = .error exitFatal := by
      unfold checkEnv
      rw [if_pos h]
    refine ⟨hc, ?_⟩
    unfold main
    rw [hc]
  · intro h
    unfold checkEnv
    rw [if_neg h]

theorem checkEnv_rejects_empty_namespace_witness :
    checkEnv noNamespaceWorld.cfg = .error exitFatal ∧
      main noNamespaceWorld = ⟨[], some exitFatal⟩ :=
  (checkEnv_rejects_empty_namespace noNamespaceWorld).1 (by decide)

end KubePlex
